import Mathlib

/-!
# Verification of the POA consensus core (signing, scheduling, gas adapter)

A shallow embedding, in Lean 4, of the consensus and scheduling core of a
proof-of-authority blockchain execution node written in Rust:

* `src/signer.rs` — key management (`SignerManager`), block sealing and
  signature verification (`BlockSealer`), signature byte serialization;
* `src/node.rs` — the engine-payload conversion adapter
  (`strip_extra_data`, `PoaEngineValidator::convert_payload_to_block`);
* the parallel scheduling / gas metering components (`TxAccessRecord`,
  `ConflictDetector`, `ParallelSchedule`, `CalldataDiscountInspector`,
  `PoaEvmFactory`), whose module sources are exercised by the repository's
  benchmark tests; where the defining module is not available those
  definitions are modelled from the specification, as marked.

Machine bytes are modelled as natural numbers (values `< 256` arise from the
encoders by construction); 256-bit words as natural numbers bounded by
`2 ^ 256` where it matters.  Cryptographic primitives (keccak hashing, ECDSA
signing and public-key recovery) are external library calls in the source and
are kept abstract here, packaged as a `SigningBackend`; theorems that depend
on cryptographic correctness take it as an explicit hypothesis.
-/

/-- Bytes of a byte string, most significant first: `beBytes k n` is `n`
rendered as `k` big-endian base-256 digits.  Models
`U256::to_be_bytes::<32>()` used by `signature_to_bytes`. -/
def beBytes : Nat → Nat → List Nat
  | 0, _ => []
  | k + 1, n => beBytes k (n / 256) ++ [n % 256]

/-- Interpret a byte string as a big-endian natural number.  Models the
`U256` parsing performed by `Signature::try_from` on the 32-byte `r` and `s`
segments. -/
def beNat (bs : List Nat) : Nat :=
  bs.foldl (fun acc b => acc * 256 + b) 0

/-- An ECDSA signature as carried by `alloy_primitives::Signature`:
256-bit `r` and `s` components and a one-bit recovery indicator `v`. -/
structure Signature where
  r : Nat
  s : Nat
  v : Bool
deriving DecidableEq, Repr

/-- `signature_to_bytes` from `src/signer.rs`: serialize a signature as
65 bytes, `r || s || v`, with `r` and `s` as 32-byte big-endian words and
`v` as a single `0`/`1` byte. -/
def signature_to_bytes (sig : Signature) : List Nat :=
  beBytes 32 sig.r ++ beBytes 32 sig.s ++ [if sig.v then 1 else 0]

/-- `bytes_to_signature` from `src/signer.rs`: reject inputs that are not
exactly 65 bytes, then parse `r` from bytes 0..32, `s` from bytes 32..64 and
the recovery indicator from byte 64 (accepting the `0/1` and legacy `27/28`
encodings, as `alloy_primitives::Signature::try_from` does). -/
def bytes_to_signature (bytes : List Nat) : Except String Signature :=
  if bytes.length ≠ 65 then
    .error "Invalid signature length"
  else
    let r := beNat (bytes.take 32)
    let s := beNat ((bytes.drop 32).take 32)
    let vb := bytes.getD 64 0
    if vb = 0 ∨ vb = 27 then .ok ⟨r, s, false⟩
    else if vb = 1 ∨ vb = 28 then .ok ⟨r, s, true⟩
    else .error "Invalid signature"

/-- A block header as manipulated by `src/signer.rs`.  The sealing code
touches only the `extra_data` field and carries every other header field
through unchanged, so the remaining `alloy_consensus::Header` fields are
collapsed into explicit representative fields plus an opaque remainder. -/
structure Header where
  parentHash : Nat
  number : Nat
  gasLimit : Nat
  timestamp : Nat
  otherFields : Nat
  extraData : List Nat
deriving DecidableEq, Repr

/-- `SignerError` from `src/signer.rs`. -/
inductive SignerError where
  | NoSignerForAddress (addr : Nat)
  | SigningFailed (msg : String)
  | InvalidPrivateKey
deriving DecidableEq, Repr

/-- The external cryptographic library surface used by `src/signer.rs`:
`keccak256 ∘ rlp::encode` on headers, ECDSA signing of a 32-byte digest by a
private key, and address recovery from a signature and digest.  These are
foreign calls in the source; theorems that need their correctness state it
as a hypothesis. -/
structure SigningBackend where
  hashHeader : Header → Nat
  signKey : Nat → Nat → Except String Signature
  recoverAddress : Signature → Nat → Except String Nat

/-- The signature segment length, `EXTRA_SEAL_LENGTH` in `src/signer.rs`. -/
def EXTRA_SEAL_LENGTH : Nat := 65

/-- `SignerManager` from `src/signer.rs`: a map from address to the private
key of a `PrivateKeySigner`, modelled as an association list (the `RwLock`
guards concurrency only and does not affect the sequential semantics). -/
structure SignerManager where
  signers : List (Nat × Nat)
deriving DecidableEq, Repr

namespace SignerManager

/-- `SignerManager::sign_hash`: look the address up in the signer map,
fail with `NoSignerForAddress` when absent, otherwise sign the digest with
exactly the key stored under that address, mapping a backend signing error
to `SigningFailed`. -/
def sign_hash (c : SigningBackend) (m : SignerManager) (address : Nat)
    (hash : Nat) : Except SignerError Signature :=
  match m.signers.lookup address with
  | none => .error (.NoSignerForAddress address)
  | some key =>
    match c.signKey key hash with
    | .error e => .error (.SigningFailed e)
    | .ok sig => .ok sig

end SignerManager

namespace BlockSealer

/-- The header that `BlockSealer::seal_hash` actually encodes and hashes:
the input header with the trailing 65-byte signature segment removed from
`extra_data` when `extra_data` is at least 65 bytes long, and unmodified
otherwise. -/
def seal_hash_input (header : Header) : Header :=
  if EXTRA_SEAL_LENGTH ≤ header.extraData.length then
    { header with
      extraData := header.extraData.take (header.extraData.length - EXTRA_SEAL_LENGTH) }
  else
    header

/-- `BlockSealer::seal_hash`: keccak of the RLP encoding of the header with
any embedded seal stripped. -/
def seal_hash (c : SigningBackend) (header : Header) : Nat :=
  c.hashHeader (seal_hash_input header)

/-- `BlockSealer::seal_header`: compute the seal hash, sign it under
`signer_address`, drop any existing trailing 65-byte signature from
`extra_data`, and append the 65 freshly produced signature bytes. -/
def seal_header (c : SigningBackend) (m : SignerManager) (header : Header)
    (signer_address : Nat) : Except SignerError Header :=
  match m.sign_hash c signer_address (seal_hash c header) with
  | .error e => .error e
  | .ok signature =>
    .ok { header with extraData :=
      (if EXTRA_SEAL_LENGTH ≤ header.extraData.length then
        header.extraData.take (header.extraData.length - EXTRA_SEAL_LENGTH)
      else
        header.extraData) ++ signature_to_bytes signature }

/-- `BlockSealer::verify_signature`: fail when `extra_data` is shorter than
65 bytes, otherwise parse the trailing 65 bytes as a signature and recover
the signing address from the seal hash of the header. -/
def verify_signature (c : SigningBackend) (header : Header) :
    Except SignerError Nat :=
  if header.extraData.length < EXTRA_SEAL_LENGTH then
    .error (.SigningFailed "Extra data too short")
  else
    match bytes_to_signature
        (header.extraData.drop (header.extraData.length - EXTRA_SEAL_LENGTH)) with
    | .error e => .error (.SigningFailed e)
    | .ok signature =>
      match c.recoverAddress signature (seal_hash c header) with
      | .error e => .error (.SigningFailed e)
      | .ok addr => .ok addr

end BlockSealer

/-- The error value `verify_signature` returns on under-length metadata; the
specification calls this failure `MalformedSeal`. -/
def MalformedSeal : SignerError := .SigningFailed "Extra data too short"

/-- The header a successful `seal_header` returns: `extra_data` is the
original with any trailing 65-byte seal removed, followed by the serialized
fresh signature.  A statement-level name for the value constructed inside
`seal_header`. -/
def sealedWith (h : Header) (sig : Signature) : Header :=
  { h with extraData :=
    (if EXTRA_SEAL_LENGTH ≤ h.extraData.length then
      h.extraData.take (h.extraData.length - EXTRA_SEAL_LENGTH)
    else
      h.extraData) ++ signature_to_bytes sig }

/-! ## Engine payload conversion adapter, from `src/node.rs` -/

/-- `alloy_rpc_types_engine::ExecutionPayloadV1` as seen by
`strip_extra_data`: the block hash the caller asserts, the `extra_data`
bytes, and the remaining fields collapsed into an opaque remainder. -/
structure ExecutionPayloadV1 where
  block_hash : Nat
  extra_data : List Nat
  otherFields : Nat
deriving DecidableEq, Repr

/-- `ExecutionPayloadV2`: a V1 payload plus the V2-only fields. -/
structure ExecutionPayloadV2 where
  payload_inner : ExecutionPayloadV1
  otherFieldsV2 : Nat
deriving DecidableEq, Repr

/-- `ExecutionPayloadV3`: a V2 payload plus the V3-only fields. -/
structure ExecutionPayloadV3 where
  payload_inner : ExecutionPayloadV2
  otherFieldsV3 : Nat
deriving DecidableEq, Repr

/-- `alloy_rpc_types_engine::ExecutionPayload`. -/
inductive ExecutionPayload where
  | V1 (p : ExecutionPayloadV1)
  | V2 (p : ExecutionPayloadV2)
  | V3 (p : ExecutionPayloadV3)
deriving DecidableEq, Repr

namespace ExecutionPayload

/-- `ExecutionPayload::block_hash`: the hash asserted in the (innermost)
V1 payload. -/
def block_hash : ExecutionPayload → Nat
  | V1 p => p.block_hash
  | V2 p => p.payload_inner.block_hash
  | V3 p => p.payload_inner.payload_inner.block_hash

/-- The `extra_data` field of the (innermost) V1 payload. -/
def extra_data : ExecutionPayload → List Nat
  | V1 p => p.extra_data
  | V2 p => p.payload_inner.extra_data
  | V3 p => p.payload_inner.payload_inner.extra_data

end ExecutionPayload

/-- `strip_extra_data` from `src/node.rs`: take the `extra_data` out of the
payload (`std::mem::take` leaves the empty default behind) and return the
stripped payload together with the original bytes. -/
def strip_extra_data (payload : ExecutionPayload) :
    ExecutionPayload × List Nat :=
  match payload with
  | .V1 p => (.V1 { p with extra_data := [] }, p.extra_data)
  | .V2 p =>
    (.V2 { p with payload_inner := { p.payload_inner with extra_data := [] } },
      p.payload_inner.extra_data)
  | .V3 p =>
    (.V3 { p with payload_inner :=
        { p.payload_inner with payload_inner :=
          { p.payload_inner.payload_inner with extra_data := [] } } },
      p.payload_inner.payload_inner.extra_data)

/-- A `reth_ethereum::Block` as manipulated by `convert_payload_to_block`:
the adapter only rewrites `header.extra_data`, so the remaining header and
body content is collapsed into an opaque remainder. -/
structure Block where
  extraData : List Nat
  otherContent : Nat
deriving DecidableEq, Repr

/-- `NewPayloadError` as produced by `convert_payload_to_block`:
`Other` wraps the error of the alloy conversion, `BlockHash` models
`PayloadError::BlockHash { execution, consensus }` lifted into
`NewPayloadError`. -/
inductive NewPayloadError where
  | Other (msg : String)
  | BlockHash (execution : Nat) (consensus : Nat)
deriving DecidableEq, Repr

/-- The external reth/alloy surface used by `convert_payload_to_block`:
`try_into_block_with_sidecar` (payload × sidecar to block, fallible) and the
canonical block hash computed by `SealedBlock::seal_slow`.  Both are foreign
calls in the source and stay abstract here. -/
structure EngineBackend where
  tryIntoBlock : ExecutionPayload → Nat → Except String Block
  hashBlock : Block → Nat

namespace PoaEngineValidator

/-- `PoaEngineValidator::convert_payload_to_block` from `src/node.rs`:
record the caller-asserted hash, strip `extra_data`, run the external
conversion on the stripped payload, splice the original `extra_data` back
onto the resulting header, recompute the canonical hash, and fail with
`BlockHash (execution, consensus)` when the recomputed hash differs from the
asserted one. -/
def convert_payload_to_block (e : EngineBackend) (payload : ExecutionPayload)
    (sidecar : Nat) : Except NewPayloadError (Block × Nat) :=
  match e.tryIntoBlock (strip_extra_data payload).1 sidecar with
  | .error err => .error (.Other err)
  | .ok block =>
    if payload.block_hash
        ≠ e.hashBlock { block with extraData := (strip_extra_data payload).2 } then
      .error (.BlockHash
        (e.hashBlock { block with extraData := (strip_extra_data payload).2 })
        payload.block_hash)
    else
      .ok ({ block with extraData := (strip_extra_data payload).2 },
        e.hashBlock { block with extraData := (strip_extra_data payload).2 })

end PoaEngineValidator

/-! ## Parallel scheduling and gas metering components

The benchmark tests in `src/evm/bench.rs` exercise
`crate::evm::parallel::{ConflictDetector, ParallelSchedule, TxAccessRecord}`
and `crate::evm::{CalldataDiscountInspector, PoaEvmFactory}`.  The defining
modules (`src/evm/parallel.rs`, `src/evm/mod.rs`) are not among the
available sources, so the definitions below are modelled from the
specification, with the benchmark tests as the calling surface they must
satisfy. -/

/-- Modelled from the spec: `TxAccessRecord` (`src/evm/parallel.rs` is not
among the available sources).  A per-transaction Access Record: the set of
(account, storage-slot) pairs read and the set written, deduplicated. -/
structure TxAccessRecord where
  reads : List (Nat × Nat)
  writes : List (Nat × Nat)
deriving DecidableEq, Repr

namespace TxAccessRecord

/-- Modelled from the spec: `TxAccessRecord::default()`, an empty record. -/
def empty : TxAccessRecord := ⟨[], []⟩

/-- Modelled from the spec: `TxAccessRecord::add_read` — membership-based
insertion into the read set (sets are deduplicated). -/
def add_read (r : TxAccessRecord) (account slot : Nat) : TxAccessRecord :=
  if (account, slot) ∈ r.reads then r
  else { r with reads := r.reads ++ [(account, slot)] }

/-- Modelled from the spec: `TxAccessRecord::add_write` — membership-based
insertion into the write set. -/
def add_write (r : TxAccessRecord) (account slot : Nat) : TxAccessRecord :=
  if (account, slot) ∈ r.writes then r
  else { r with writes := r.writes ++ [(account, slot)] }

end TxAccessRecord

/-- Whether two access sets share an element. -/
def accessIntersects (xs ys : List (Nat × Nat)) : Bool :=
  xs.any (fun p => decide (p ∈ ys))

namespace ConflictDetector

/-- Modelled from the spec: `ConflictDetector::conflicts`
(`src/evm/parallel.rs` is not among the available sources).  True iff
write(a) meets read(b), read(a) meets write(b), or write(a) meets
write(b). -/
def conflicts (a b : TxAccessRecord) : Bool :=
  accessIntersects a.writes b.reads ||
  accessIntersects a.reads b.writes ||
  accessIntersects a.writes b.writes

end ConflictDetector

/-- Modelled from the spec: `ParallelSchedule` — an ordered sequence of
batches of transaction indices. -/
structure ParallelSchedule where
  batches : List (List Nat)
deriving DecidableEq, Repr

/-- Modelled from the spec: the level assigned to the next record by the
greedy level assignment of §4.2 — `prev` holds the already-scheduled
records paired with their assigned levels; the next record gets level 0
when no predecessor conflicts with it, and `1 + max` of the conflicting
predecessors' levels otherwise. -/
def levelFor (r : TxAccessRecord) (prev : List (TxAccessRecord × Nat)) : Nat :=
  if (prev.filter (fun p => ConflictDetector.conflicts p.1 r)).isEmpty then 0
  else 1 + ((prev.filter (fun p => ConflictDetector.conflicts p.1 r)).map
    (fun p => p.2)).foldl max 0

/-- Modelled from the spec: the greedy level assignment processed in input
order, returning each transaction's level in input order. -/
def buildLevels : List TxAccessRecord → List (TxAccessRecord × Nat) → List Nat
  | [], _ => []
  | r :: rest, prev =>
    levelFor r prev :: buildLevels rest (prev ++ [(r, levelFor r prev)])

/-- The number of batches implied by a level assignment: zero for no
transactions, one more than the highest level otherwise. -/
def numLevels (levels : List Nat) : Nat :=
  if levels.isEmpty then 0 else levels.foldl max 0 + 1

namespace ParallelSchedule

/-- Modelled from the spec: `ParallelSchedule::build` — assign each
transaction its greedy level, then emit one batch per level in ascending
level order, each batch listing its transaction indices in input order. -/
def build (records : List TxAccessRecord) : ParallelSchedule :=
  ⟨(List.range (numLevels (buildLevels records []))).map
    (fun l => ((buildLevels records []).enum.filter (fun p => p.2 = l)).map
      (fun p => p.1))⟩

/-- Modelled from the spec: `ParallelSchedule::tx_count` — the total number
of scheduled transaction indices. -/
def tx_count (s : ParallelSchedule) : Nat :=
  (s.batches.map (fun b => b.length)).sum

end ParallelSchedule

/-- Modelled from the spec: `CalldataDiscountInspector`
(`src/evm/mod.rs` is not among the available sources).  Carries the
configured gas cost per non-zero calldata byte; the wrapped inner inspector
plays no role in the discount computation. -/
structure CalldataDiscountInspector where
  calldata_gas_per_byte : Nat
deriving DecidableEq, Repr

/-- The reference protocol's cost per non-zero calldata byte (EIP-2028). -/
def CALLDATA_REFERENCE_RATE : Nat := 16

namespace CalldataDiscountInspector

/-- Modelled from the spec: `discount_for(non_zero_byte_count)` =
`non_zero_byte_count * (16 - calldata_gas_per_byte)`. -/
def discount_for (insp : CalldataDiscountInspector)
    (non_zero_byte_count : Nat) : Nat :=
  non_zero_byte_count * (CALLDATA_REFERENCE_RATE - insp.calldata_gas_per_byte)

/-- Modelled from the spec: `has_discount()` =
`calldata_gas_per_byte < 16`. -/
def has_discount (insp : CalldataDiscountInspector) : Bool :=
  insp.calldata_gas_per_byte < CALLDATA_REFERENCE_RATE

end CalldataDiscountInspector

/-- The execution environment's built-in deployed-code size limit
(EIP-170, 24 KiB), used when no override is configured. -/
def MAX_CODE_SIZE : Nat := 24576

/-- The execution environment's built-in initcode size limit
(EIP-3860, `2 * MAX_CODE_SIZE`). -/
def MAX_INITCODE_SIZE : Nat := 2 * MAX_CODE_SIZE

/-- The configuration part of the execution environment (`revm` `CfgEnv`)
touched by the factory's environment patch: optional overrides of the
contract-code and initcode size limits, `none` meaning the built-in
default applies. -/
structure CfgEnv where
  limit_contract_code_size : Option Nat
  limit_contract_initcode_size : Option Nat
deriving DecidableEq, Repr

namespace CfgEnv

/-- A default `CfgEnv`: no overrides. -/
def default : CfgEnv := ⟨none, none⟩

/-- The deployed-code size limit the execution environment enforces: the
override when present, the built-in default otherwise. -/
def effective_code_limit (cfg : CfgEnv) : Nat :=
  cfg.limit_contract_code_size.getD MAX_CODE_SIZE

/-- The initcode size limit the execution environment enforces: the
override when present, the built-in default otherwise. -/
def effective_initcode_limit (cfg : CfgEnv) : Nat :=
  cfg.limit_contract_initcode_size.getD MAX_INITCODE_SIZE

end CfgEnv

/-- Modelled from the spec: `PoaEvmFactory` (`src/evm/mod.rs` is not among
the available sources) — the optional max-contract-size override and the
calldata gas rate. -/
structure PoaEvmFactory where
  max_contract_size : Option Nat
  calldata_gas_per_byte : Nat
deriving DecidableEq, Repr

namespace PoaEvmFactory

/-- Modelled from the spec: the factory's environment patch — when
`max_contract_size` is set to `v`, set the contract-code-size limit to `v`
and the initcode-size limit to `2 * v`; when unset, leave the environment
untouched so both limits fall back to the built-in defaults. -/
def patch_env (f : PoaEvmFactory) (cfg : CfgEnv) : CfgEnv :=
  match f.max_contract_size with
  | some v =>
    { cfg with
      limit_contract_code_size := some v
      limit_contract_initcode_size := some (2 * v) }
  | none => cfg

end PoaEvmFactory

/-! ## Concrete fixtures

Small concrete instantiations of the abstract cryptographic and engine
backends, used to evaluate the theorems on explicit inputs.  The demo
backend satisfies the signing-correctness hypotheses by construction
(`recoverAddress` reads the address straight out of the toy signature). -/

/-- A toy signing backend: the "signature" carries the key as `r`, and
recovery returns `r`.  Adequate for exercising the sealing code paths,
which never inspect signature internals. -/
def demoBackend : SigningBackend where
  hashHeader h := h.number + h.extraData.length
  signKey key _digest := .ok ⟨key % 2 ^ 256, 0, false⟩
  recoverAddress sig _digest := .ok sig.r

/-- A signer store holding one key, `5`, whose toy-derived address is `5`. -/
def demoManager : SignerManager := ⟨[(5, 5)]⟩

/-- A production-shaped header: 97-byte `extra_data`. -/
def demoHeader : Header := ⟨0, 1, 30000000, 12345, 0, List.replicate 97 0⟩

/-- A header with under-length (10-byte) `extra_data`. -/
def shortHeader : Header := ⟨0, 2, 30000000, 12345, 0, List.replicate 10 0⟩

/-- A toy engine backend: the conversion always succeeds with a block whose
`extra_data` is the payload's, and the canonical hash is the `extra_data`
length. -/
def demoEngineBackend : EngineBackend where
  tryIntoBlock p _sidecar := .ok ⟨p.extra_data, 0⟩
  hashBlock b := b.extraData.length

/-- The hot-slot record of the throughput benchmark: one write to
`(addr 1, slot 0)` on an otherwise empty record. -/
def hotRecord : TxAccessRecord := TxAccessRecord.empty.add_write 1 0

/-- A V1 payload whose asserted hash (`97`) matches the toy engine
backend's recomputed hash of its 97-byte `extra_data`. -/
def demoPayloadGood : ExecutionPayload := .V1 ⟨97, List.replicate 97 3, 0⟩

/-- A V1 payload asserting hash `5`, which the toy engine backend's
recomputation (`97`) contradicts. -/
def demoPayloadBad : ExecutionPayload := .V1 ⟨5, List.replicate 97 3, 0⟩

/-- The toy backend's sealing of `demoHeader` under address `5`: the 32-byte
vanity remainder followed by the toy signature's 65 bytes. -/
def demoSealed : Header :=
  ⟨0, 1, 30000000, 12345, 0,
    List.replicate 32 0 ++ signature_to_bytes ⟨5, 0, false⟩⟩

/-- The toy backend's sealing of `shortHeader` under address `5`: the whole
10-byte `extra_data` kept, the toy signature's 65 bytes appended. -/
def shortSealed : Header :=
  ⟨0, 2, 30000000, 12345, 0,
    List.replicate 10 0 ++ signature_to_bytes ⟨5, 0, false⟩⟩

/-- A signing backend whose recovery always fails, exercising the
recovery-failure path of `verify_signature`. -/
def demoFailBackend : SigningBackend where
  hashHeader h := h.number + h.extraData.length
  signKey key _digest := .ok ⟨key % 2 ^ 256, 0, false⟩
  recoverAddress _sig _digest := .error "bad sig"

/-! ## Byte-encoding lemmas -/

/-- `beBytes k n` always renders exactly `k` bytes. -/
theorem beBytes_length (k n : Nat) : (beBytes k n).length = k := by
  induction k generalizing n with
  | zero => simp [beBytes]
  | succ k ih => simp [beBytes, ih]

/-- Appending one more low-order byte multiplies the value by 256. -/
theorem beNat_append (xs : List Nat) (b : Nat) :
    beNat (xs ++ [b]) = beNat xs * 256 + b := by
  simp [beNat, List.foldl_append]

/-- Big-endian encoding followed by decoding is the identity on values that
fit in `k` bytes. -/
theorem beNat_beBytes (k : Nat) :
    ∀ n : Nat, n < 256 ^ k → beNat (beBytes k n) = n := by
  induction k with
  | zero =>
    intro n hn
    interval_cases n
    simp [beBytes, beNat]
  | succ k ih =>
    intro n hn
    rw [beBytes, beNat_append, ih (n / 256) ?_]
    · omega
    · rw [Nat.div_lt_iff_lt_mul (by norm_num)]
      calc n < 256 ^ (k + 1) := hn
        _ = 256 ^ k * 256 := by ring

/-- The serialized signature is exactly 65 bytes. -/
theorem signature_to_bytes_length (sig : Signature) :
    (signature_to_bytes sig).length = 65 := by
  simp [signature_to_bytes, beBytes_length]

/-- Parsing undoes serialization for signatures whose components fit in
256 bits. -/
theorem bytes_to_signature_roundtrip (sig : Signature)
    (hr : sig.r < 2 ^ 256) (hs : sig.s < 2 ^ 256) :
    bytes_to_signature (signature_to_bytes sig) = .ok sig := by
  obtain ⟨r, s, v⟩ := sig
  have hr' : r < 256 ^ 32 := by
    calc r < 2 ^ 256 := hr
      _ = 256 ^ 32 := by norm_num
  have hs' : s < 256 ^ 32 := by
    calc s < 2 ^ 256 := hs
      _ = 256 ^ 32 := by norm_num
  have hlen : (signature_to_bytes ⟨r, s, v⟩).length = 65 :=
    signature_to_bytes_length _
  have hrlen : (beBytes 32 r).length = 32 := beBytes_length 32 r
  have hslen : (beBytes 32 s).length = 32 := beBytes_length 32 s
  unfold bytes_to_signature
  rw [if_neg (by omega)]
  unfold signature_to_bytes at hlen ⊢
  simp only
  have htake : ((beBytes 32 r ++ (beBytes 32 s ++ [if v then 1 else 0])).take 32)
      = beBytes 32 r := List.take_left' hrlen
  have hdrop : ((beBytes 32 r ++ (beBytes 32 s ++ [if v then 1 else 0])).drop 32)
      = beBytes 32 s ++ [if v then 1 else 0] := List.drop_left' hrlen
  have htake2 : ((beBytes 32 s ++ [if v then 1 else 0]).take 32)
      = beBytes 32 s := List.take_left' hslen
  have hgetD : ((beBytes 32 r ++ (beBytes 32 s ++ [if v then 1 else 0])).getD 64 0)
      = if v then 1 else 0 := by
    rw [List.getD_eq_getElem?_getD, List.getElem?_append_right (by omega),
      List.getElem?_append_right (by omega)]
    simp [hrlen, hslen]
  rw [List.append_assoc]
  rw [htake, hdrop, htake2, hgetD, beNat_beBytes 32 r hr', beNat_beBytes 32 s hs']
  cases v <;> simp

/-! ## Sealing lemmas -/

/-- When signing succeeds, `seal_header` returns exactly `sealedWith`. -/
theorem seal_header_eq_sealedWith (c : SigningBackend) (m : SignerManager)
    (h : Header) (A : Nat) (sig : Signature)
    (hsh : m.sign_hash c A (BlockSealer.seal_hash c h) = .ok sig) :
    BlockSealer.seal_header c m h A = .ok (sealedWith h sig) := by
  unfold BlockSealer.seal_header
  rw [hsh]
  rfl

/-- A successful `seal_header` signs the seal hash and returns
`sealedWith`. -/
theorem seal_header_ok_form (c : SigningBackend) (m : SignerManager)
    (h : Header) (A : Nat) (sealed : Header)
    (hok : BlockSealer.seal_header c m h A = .ok sealed) :
    ∃ sig, m.sign_hash c A (BlockSealer.seal_hash c h) = .ok sig ∧
      sealed = sealedWith h sig := by
  unfold BlockSealer.seal_header at hok
  cases hsig : m.sign_hash c A (BlockSealer.seal_hash c h) with
  | error e => rw [hsig] at hok; cases hok
  | ok sig =>
    rw [hsig] at hok
    simp only [Except.ok.injEq] at hok
    exact ⟨sig, rfl, hok.symm⟩

/-- The sealed header's `extra_data` is always at least 65 bytes long. -/
theorem sealedWith_len_ge (h : Header) (sig : Signature) :
    EXTRA_SEAL_LENGTH ≤ (sealedWith h sig).extraData.length := by
  unfold sealedWith
  simp only [List.length_append, signature_to_bytes_length]
  simp [EXTRA_SEAL_LENGTH]

/-- The trailing 65 bytes of a sealed header are the serialized fresh
signature. -/
theorem sealedWith_drop (h : Header) (sig : Signature) :
    (sealedWith h sig).extraData.drop
      ((sealedWith h sig).extraData.length - EXTRA_SEAL_LENGTH)
    = signature_to_bytes sig := by
  unfold sealedWith
  simp only
  generalize (if EXTRA_SEAL_LENGTH ≤ h.extraData.length then
      h.extraData.take (h.extraData.length - EXTRA_SEAL_LENGTH)
    else
      h.extraData) = st
  have hlen : (st ++ signature_to_bytes sig).length - EXTRA_SEAL_LENGTH
      = st.length := by
    rw [List.length_append, signature_to_bytes_length]
    simp [EXTRA_SEAL_LENGTH]
  rw [hlen, List.drop_left]

/-- Appending a fresh 65-byte signature to the stripped `extra_data` does
not change the header seen by `seal_hash`. -/
theorem seal_hash_input_sealedWith (h : Header) (sig : Signature) :
    BlockSealer.seal_hash_input (sealedWith h sig)
      = BlockSealer.seal_hash_input h := by
  have hsig65 : (signature_to_bytes sig).length = 65 :=
    signature_to_bytes_length sig
  unfold sealedWith
  by_cases hlen : EXTRA_SEAL_LENGTH ≤ h.extraData.length
  · have htl : (h.extraData.take (h.extraData.length - EXTRA_SEAL_LENGTH)).length
        = h.extraData.length - EXTRA_SEAL_LENGTH := by
      rw [List.length_take]
      omega
    rw [if_pos hlen]
    unfold BlockSealer.seal_hash_input
    rw [if_pos (by simp [List.length_append, htl, hsig65, EXTRA_SEAL_LENGTH])]
    rw [if_pos hlen]
    simp only [List.length_append, htl, hsig65]
    have harith : h.extraData.length - EXTRA_SEAL_LENGTH + 65 - EXTRA_SEAL_LENGTH
        = h.extraData.length - EXTRA_SEAL_LENGTH := by
      simp [EXTRA_SEAL_LENGTH]
    rw [harith, List.take_left' htl]
  · rw [if_neg hlen]
    unfold BlockSealer.seal_hash_input
    rw [if_pos (by simp [List.length_append, hsig65, EXTRA_SEAL_LENGTH])]
    rw [if_neg hlen]
    simp only [List.length_append, hsig65]
    have harith : h.extraData.length + 65 - EXTRA_SEAL_LENGTH
        = h.extraData.length := by
      simp [EXTRA_SEAL_LENGTH]
    rw [harith, List.take_left' rfl]

/-- The seal hash of a freshly sealed header equals the seal hash of the
header it was sealed from. -/
theorem seal_hash_of_sealed (c : SigningBackend) (m : SignerManager)
    (h : Header) (A : Nat) (sealed : Header)
    (hok : BlockSealer.seal_header c m h A = .ok sealed) :
    BlockSealer.seal_hash c sealed = BlockSealer.seal_hash c h := by
  obtain ⟨sig, -, rfl⟩ := seal_header_ok_form c m h A sealed hok
  unfold BlockSealer.seal_hash
  rw [seal_hash_input_sealedWith]

/-! ## Claims about the Block Sealer and Signer Key Store -/

/-- C1: for every header and every address held by the signer store, sealing
and then verifying recovers exactly that address, given that the external
signature scheme is correct on this input (signing under the stored key
succeeds with in-range components and recovery inverts it to the address). -/
theorem verify_seal_roundtrip (c : SigningBackend) (m : SignerManager)
    (h : Header) (A key : Nat) (sig : Signature)
    (hkey : m.signers.lookup A = some key)
    (hsig : c.signKey key (BlockSealer.seal_hash c h) = .ok sig)
    (hr : sig.r < 2 ^ 256) (hs : sig.s < 2 ^ 256)
    (hrec : c.recoverAddress sig (BlockSealer.seal_hash c h) = .ok A) :
    (BlockSealer.seal_header c m h A).bind (BlockSealer.verify_signature c)
      = .ok A := by
  have hsh : m.sign_hash c A (BlockSealer.seal_hash c h) = .ok sig := by
    simp [SignerManager.sign_hash, hkey, hsig]
  rw [seal_header_eq_sealedWith c m h A sig hsh]
  show BlockSealer.verify_signature c (sealedWith h sig) = .ok A
  have hge := sealedWith_len_ge h sig
  have hhash : BlockSealer.seal_hash c (sealedWith h sig)
      = BlockSealer.seal_hash c h := by
    unfold BlockSealer.seal_hash
    rw [seal_hash_input_sealedWith]
  unfold BlockSealer.verify_signature
  rw [if_neg (by omega)]
  rw [sealedWith_drop, bytes_to_signature_roundtrip sig hr hs]
  simp only [hhash, hrec]

/-- C1 witness: with the toy backend, store `{5 ↦ 5}` and the 97-byte demo
header, seal-then-verify returns address `5`. -/
theorem verify_seal_roundtrip_inst :
    (BlockSealer.seal_header demoBackend demoManager demoHeader 5).bind
      (BlockSealer.verify_signature demoBackend) = .ok 5 :=
  verify_seal_roundtrip demoBackend demoManager demoHeader 5 5 ⟨5, 0, false⟩
    (by rfl) (by rfl) (by decide) (by decide) (by rfl)

/-- C2: `verify_signature` returns the `MalformedSeal` error value whenever
`extra_data` is shorter than 65 bytes (it is a total function, so it never
panics); on `extra_data` of at least 65 bytes it either recovers an address
or fails with a `SigningFailed` error, and in particular when the trailing
65 bytes parse but recovery rejects them as cryptographically invalid it
fails with `SigningFailed` carrying the recovery error. -/
theorem verify_signature_cases (c : SigningBackend) (h : Header) :
    (h.extraData.length < EXTRA_SEAL_LENGTH →
      BlockSealer.verify_signature c h = .error MalformedSeal) ∧
    (EXTRA_SEAL_LENGTH ≤ h.extraData.length →
      (∃ a, BlockSealer.verify_signature c h = .ok a) ∨
      (∃ msg, BlockSealer.verify_signature c h = .error (.SigningFailed msg))) ∧
    (EXTRA_SEAL_LENGTH ≤ h.extraData.length →
      ∀ sig e, bytes_to_signature
          (h.extraData.drop (h.extraData.length - EXTRA_SEAL_LENGTH)) = .ok sig →
        c.recoverAddress sig (BlockSealer.seal_hash c h) = .error e →
        BlockSealer.verify_signature c h = .error (.SigningFailed e)) := by
  refine ⟨fun hlt => ?_, fun hge => ?_, fun hge sig e hparse hrec => ?_⟩
  · unfold BlockSealer.verify_signature
    rw [if_pos hlt]
    rfl
  · unfold BlockSealer.verify_signature
    rw [if_neg (by omega)]
    rcases hparse : bytes_to_signature
        (h.extraData.drop (h.extraData.length - EXTRA_SEAL_LENGTH)) with e | sig
    · exact .inr ⟨e, by simp⟩
    · rcases hrec : c.recoverAddress sig (BlockSealer.seal_hash c h) with e | a
      · exact .inr ⟨e, by simp [hrec]⟩
      · exact .inl ⟨a, by simp [hrec]⟩
  · unfold BlockSealer.verify_signature
    rw [if_neg (by omega)]
    simp only [hparse, hrec]

/-- C2 witness: the 10-byte header fails with `MalformedSeal`; on the
97-byte demo header a backend whose recovery rejects the signature makes
`verify_signature` fail with the recovery error. -/
theorem verify_signature_cases_inst :
    BlockSealer.verify_signature demoBackend shortHeader
      = .error MalformedSeal ∧
    BlockSealer.verify_signature demoFailBackend demoHeader
      = .error (.SigningFailed "bad sig") :=
  ⟨(verify_signature_cases demoBackend shortHeader).1 (by decide),
    (verify_signature_cases demoFailBackend demoHeader).2.2 (by decide)
      ⟨0, 0, false⟩ "bad sig" (by rfl) (by rfl)⟩

/-- C3: the seal digest is computed over the header with the trailing
65-byte segment removed exactly when `extra_data` is at least 65 bytes
(shorter headers are hashed unmodified), and sealing does not change the
seal digest: `seal_hash (seal h A) = seal_hash h`. -/
theorem seal_digest_strip_and_idempotent (c : SigningBackend) (h : Header) :
    (EXTRA_SEAL_LENGTH ≤ h.extraData.length →
      BlockSealer.seal_hash_input h
        = { h with extraData := h.extraData.take (h.extraData.length - EXTRA_SEAL_LENGTH) }) ∧
    (h.extraData.length < EXTRA_SEAL_LENGTH →
      BlockSealer.seal_hash_input h = h) ∧
    (∀ (m : SignerManager) (A : Nat) (sealed : Header),
      BlockSealer.seal_header c m h A = .ok sealed →
      BlockSealer.seal_hash c sealed = BlockSealer.seal_hash c h) := by
  refine ⟨fun hge => ?_, fun hlt => ?_,
    fun m A sealed hok => seal_hash_of_sealed c m h A sealed hok⟩
  · unfold BlockSealer.seal_hash_input
    rw [if_pos hge]
  · unfold BlockSealer.seal_hash_input
    rw [if_neg (by omega)]

/-- C3 witness: strip behaviour on the 97- and 10-byte headers, and digest
invariance across the concrete sealing of the demo header. -/
theorem seal_digest_strip_and_idempotent_inst :
    BlockSealer.seal_hash_input demoHeader
      = { demoHeader with extraData := demoHeader.extraData.take (demoHeader.extraData.length - EXTRA_SEAL_LENGTH) } ∧
    BlockSealer.seal_hash_input shortHeader = shortHeader ∧
    BlockSealer.seal_hash demoBackend demoSealed
      = BlockSealer.seal_hash demoBackend demoHeader :=
  ⟨(seal_digest_strip_and_idempotent demoBackend demoHeader).1 (by decide),
    (seal_digest_strip_and_idempotent demoBackend shortHeader).2.1 (by decide),
    (seal_digest_strip_and_idempotent demoBackend demoHeader).2.2
      demoManager 5 demoSealed (by rfl)⟩

/-- C6: `sign_hash` on an address absent from the store fails with
`NoSignerForAddress` for exactly that address; on a held address it signs
with exactly the key stored under that address (so a missing signer is never
silently replaced by another held key). -/
theorem sign_hash_no_signer_policy (c : SigningBackend) (m : SignerManager)
    (A digest : Nat) :
    (m.signers.lookup A = none →
      m.sign_hash c A digest = .error (.NoSignerForAddress A)) ∧
    (∀ key, m.signers.lookup A = some key →
      m.sign_hash c A digest =
        match c.signKey key digest with
        | .error e => .error (.SigningFailed e)
        | .ok sig => .ok sig) := by
  constructor
  · intro hnone
    unfold SignerManager.sign_hash
    rw [hnone]
  · intro key hkey
    unfold SignerManager.sign_hash
    rw [hkey]

/-- C6 witness: the one-entry demo store refuses address `7` with
`NoSignerForAddress 7` and signs for address `5` with the stored key `5`. -/
theorem sign_hash_no_signer_policy_inst :
    SignerManager.sign_hash demoBackend demoManager 7 0
      = .error (.NoSignerForAddress 7) ∧
    SignerManager.sign_hash demoBackend demoManager 5 0
      = match demoBackend.signKey 5 0 with
        | .error e => .error (.SigningFailed e)
        | .ok sig => .ok sig :=
  ⟨(sign_hash_no_signer_policy demoBackend demoManager 7 0).1 (by rfl),
    (sign_hash_no_signer_policy demoBackend demoManager 5 0).2 5 (by rfl)⟩

/-- C10: sealing a header whose `extra_data` is shorter than 65 bytes
appends the 65 signature bytes after the intact original bytes, so the
length grows by 65; sealing a header whose `extra_data` is at least 65 bytes
replaces the trailing 65 bytes, leaving the length and the leading bytes
unchanged. -/
theorem seal_header_extra_data_evolution (c : SigningBackend)
    (m : SignerManager) (h : Header) (A : Nat) (sealed : Header)
    (hok : BlockSealer.seal_header c m h A = .ok sealed) :
    (h.extraData.length < EXTRA_SEAL_LENGTH →
      sealed.extraData.length = h.extraData.length + EXTRA_SEAL_LENGTH ∧
      sealed.extraData.take h.extraData.length = h.extraData) ∧
    (EXTRA_SEAL_LENGTH ≤ h.extraData.length →
      sealed.extraData.length = h.extraData.length ∧
      sealed.extraData.take (h.extraData.length - EXTRA_SEAL_LENGTH)
        = h.extraData.take (h.extraData.length - EXTRA_SEAL_LENGTH)) := by
  obtain ⟨sig, -, rfl⟩ := seal_header_ok_form c m h A sealed hok
  have hsig65 : (signature_to_bytes sig).length = 65 :=
    signature_to_bytes_length sig
  unfold sealedWith
  constructor
  · intro hlt
    rw [if_neg (by omega)]
    constructor
    · simp [List.length_append, hsig65, EXTRA_SEAL_LENGTH]
    · rw [List.take_left' rfl]
  · intro hge
    rw [if_pos hge]
    have htl : (h.extraData.take (h.extraData.length - EXTRA_SEAL_LENGTH)).length
        = h.extraData.length - EXTRA_SEAL_LENGTH := by
      rw [List.length_take]
      omega
    constructor
    · simp only [List.length_append, htl, hsig65]
      have h65 : EXTRA_SEAL_LENGTH ≤ h.extraData.length := hge
      simp only [EXTRA_SEAL_LENGTH] at h65 ⊢
      omega
    · rw [List.take_left' htl]

/-- C10 witness: sealing the 10-byte header grows `extra_data` to 75 bytes
with the original 10 bytes intact; sealing the 97-byte header keeps the
length at 97 with the leading 32 bytes intact. -/
theorem seal_header_extra_data_evolution_inst :
    (shortSealed.extraData.length
        = shortHeader.extraData.length + EXTRA_SEAL_LENGTH ∧
      shortSealed.extraData.take shortHeader.extraData.length
        = shortHeader.extraData) ∧
    (demoSealed.extraData.length = demoHeader.extraData.length ∧
      demoSealed.extraData.take
          (demoHeader.extraData.length - EXTRA_SEAL_LENGTH)
        = demoHeader.extraData.take
          (demoHeader.extraData.length - EXTRA_SEAL_LENGTH)) :=
  ⟨(seal_header_extra_data_evolution demoBackend demoManager shortHeader 5
      shortSealed (by rfl)).1 (by decide),
    (seal_header_extra_data_evolution demoBackend demoManager demoHeader 5
      demoSealed (by rfl)).2 (by decide)⟩

/-! ## Claim about the payload-conversion adapter -/

/-- C7: the adapter strips `extra_data` before the external conversion
(the stripped payload carries empty `extra_data` and the original bytes are
returned alongside), propagates a conversion failure, and otherwise splices
the original `extra_data` back onto the converted block, recomputes the
canonical hash, failing with `BlockHash` carrying the recomputed and the
asserted hash when they differ and succeeding with the resealed block when
they agree. -/
theorem convert_payload_strip_splice_hashcheck (e : EngineBackend)
    (payload : ExecutionPayload) (sidecar : Nat) :
    ((strip_extra_data payload).2 = payload.extra_data ∧
      (strip_extra_data payload).1.extra_data = []) ∧
    (∀ err, e.tryIntoBlock (strip_extra_data payload).1 sidecar = .error err →
      PoaEngineValidator.convert_payload_to_block e payload sidecar
        = .error (.Other err)) ∧
    (∀ b, e.tryIntoBlock (strip_extra_data payload).1 sidecar = .ok b →
      (payload.block_hash
          ≠ e.hashBlock { b with extraData := payload.extra_data } →
        PoaEngineValidator.convert_payload_to_block e payload sidecar
          = .error (.BlockHash
            (e.hashBlock { b with extraData := payload.extra_data })
            payload.block_hash)) ∧
      (payload.block_hash
          = e.hashBlock { b with extraData := payload.extra_data } →
        PoaEngineValidator.convert_payload_to_block e payload sidecar
          = .ok ({ b with extraData := payload.extra_data },
            e.hashBlock { b with extraData := payload.extra_data }))) := by
  have hsplice : (strip_extra_data payload).2 = payload.extra_data := by
    cases payload <;> rfl
  have hempty : (strip_extra_data payload).1.extra_data = [] := by
    cases payload <;> rfl
  refine ⟨⟨hsplice, hempty⟩, fun err herr => ?_, fun b hb => ⟨fun hne => ?_, fun heq => ?_⟩⟩
  · unfold PoaEngineValidator.convert_payload_to_block
    simp only [herr]
  · unfold PoaEngineValidator.convert_payload_to_block
    simp only [hb, hsplice]
    rw [if_pos hne]
  · unfold PoaEngineValidator.convert_payload_to_block
    simp only [hb, hsplice]
    rw [if_neg (not_not_intro heq)]

/-- C7 witness: with the toy engine backend, the matching payload converts
to the resealed block and hash `97`, and the mismatching payload fails with
`BlockHash` carrying the recomputed hash `97` and the asserted hash `5`. -/
theorem convert_payload_strip_splice_hashcheck_inst :
    PoaEngineValidator.convert_payload_to_block demoEngineBackend
        demoPayloadGood 0
      = .ok (⟨List.replicate 97 3, 0⟩, 97) ∧
    PoaEngineValidator.convert_payload_to_block demoEngineBackend
        demoPayloadBad 0
      = .error (.BlockHash 97 5) :=
  ⟨((convert_payload_strip_splice_hashcheck demoEngineBackend
      demoPayloadGood 0).2.2 ⟨[], 0⟩ (by rfl)).2 (by rfl),
    ((convert_payload_strip_splice_hashcheck demoEngineBackend
      demoPayloadBad 0).2.2 ⟨[], 0⟩ (by rfl)).1 (by decide)⟩

/-! ## Claims about the Conflict Detector and Gas Metering Adapter -/

/-- Sharing an element is mutual. -/
theorem accessIntersects_comm (xs ys : List (Nat × Nat)) :
    accessIntersects xs ys = accessIntersects ys xs := by
  simp only [accessIntersects]
  rw [Bool.eq_iff_iff]
  simp only [List.any_eq_true, decide_eq_true_eq]
  constructor
  · rintro ⟨p, hx, hy⟩
    exact ⟨p, hy, hx⟩
  · rintro ⟨p, hy, hx⟩
    exact ⟨p, hx, hy⟩

/-- C5: the conflict predicate is symmetric — swapping the two Access
Records swaps the read-after-write and write-after-read clauses and fixes
the write-after-write clause. -/
theorem conflicts_symmetric (a b : TxAccessRecord) :
    ConflictDetector.conflicts a b = ConflictDetector.conflicts b a := by
  simp only [ConflictDetector.conflicts]
  rw [accessIntersects_comm a.writes b.reads,
    accessIntersects_comm a.reads b.writes,
    accessIntersects_comm a.writes b.writes]
  cases accessIntersects b.reads a.writes <;>
    cases accessIntersects b.writes a.reads <;> simp

/-- C8: the calldata discount is
`non_zero_byte_count * (16 - calldata_gas_per_byte)`; at 1000 non-zero
bytes it is 12000 for rate 4, 0 for rate 16, and 15000 for rate 1. -/
theorem discount_for_formula :
    (∀ (rate n : Nat),
      CalldataDiscountInspector.discount_for ⟨rate⟩ n = n * (16 - rate)) ∧
    CalldataDiscountInspector.discount_for ⟨4⟩ 1000 = 12000 ∧
    CalldataDiscountInspector.discount_for ⟨16⟩ 1000 = 0 ∧
    CalldataDiscountInspector.discount_for ⟨1⟩ 1000 = 15000 :=
  ⟨fun _ _ => rfl, by decide, by decide, by decide⟩

/-- C9: with `max_contract_size = some v` the environment patch sets the
contract-code-size limit to `v` and the initcode-size limit to `2 * v`
(131072 yields 131072 and 262144); with it unset the patch leaves the
environment untouched, so both limits fall back to the built-in defaults
24576 and 49152. -/
theorem patch_env_contract_size_limits :
    (∀ (v gas : Nat) (cfg : CfgEnv),
      ((PoaEvmFactory.mk (some v) gas).patch_env cfg).limit_contract_code_size
          = some v ∧
      ((PoaEvmFactory.mk (some v) gas).patch_env cfg).limit_contract_initcode_size
          = some (2 * v)) ∧
    (∀ gas : Nat,
      (PoaEvmFactory.mk none gas).patch_env CfgEnv.default = CfgEnv.default ∧
      ((PoaEvmFactory.mk none gas).patch_env CfgEnv.default).effective_code_limit
          = 24576 ∧
      ((PoaEvmFactory.mk none gas).patch_env CfgEnv.default).effective_initcode_limit
          = 49152) ∧
    ((PoaEvmFactory.mk (some 131072) 4).patch_env CfgEnv.default).effective_code_limit
        = 131072 ∧
    ((PoaEvmFactory.mk (some 131072) 4).patch_env CfgEnv.default).effective_initcode_limit
        = 262144 :=
  ⟨fun _ _ _ => ⟨rfl, rfl⟩, fun _ => ⟨rfl, rfl, rfl⟩, by decide, by decide⟩

/-! ## Claim about the Schedule Builder -/

/-- The running maximum of `0, …, k` is `k`. -/
theorem foldl_max_range (k : Nat) : (List.range (k + 1)).foldl max 0 = k := by
  induction k with
  | zero => rfl
  | succ k ih =>
    rw [List.range_succ, List.foldl_append, ih]
    simp [Nat.max_eq_right (Nat.le_succ k)]

/-- Zipping a list with itself duplicates each element. -/
theorem zip_self_eq_map {α : Type} (l : List α) :
    l.zip l = l.map (fun a => (a, a)) := by
  induction l with
  | nil => rfl
  | cons a l ih => simp [List.zip_cons_cons, ih]

/-- Enumerating `range n` pairs each index with itself. -/
theorem enum_range (n : Nat) :
    (List.range n).enum = (List.range n).map (fun i => (i, i)) := by
  rw [List.enum_eq_zip_range, List.length_range, zip_self_eq_map]

/-- Filtering `range n` for one index `l < n` keeps exactly `[l]`. -/
theorem range_filter_eq (n l : Nat) (h : l < n) :
    (List.range n).filter (fun i => decide (i = l)) = [l] := by
  induction n with
  | zero => omega
  | succ n ih =>
    rw [List.range_succ, List.filter_append]
    rcases Nat.lt_or_ge l n with hl | hl
    · rw [ih hl]
      have : (List.filter (fun i => decide (i = l)) [n]) = [] := by
        simp
        omega
      rw [this, List.append_nil]
    · have hln : l = n := by omega
      subst hln
      have hnil : (List.range l).filter (fun i => decide (i = l)) = [] := by
        rw [List.filter_eq_nil_iff]
        intro a ha
        have := List.mem_range.mp ha
        simp
        omega
      rw [hnil]
      simp

/-- Extracting the indices at level `l` from the enumerated level list
`range n` yields exactly `[l]`, for `l < n`. -/
theorem enum_range_filter (n l : Nat) (h : l < n) :
    (((List.range n).enum.filter (fun p => p.2 = l)).map (fun p => p.1))
      = [l] := by
  rw [enum_range, List.filter_map]
  have hpred : ((fun p : Nat × Nat => decide (p.2 = l)) ∘ fun i => (i, i))
      = fun i => decide (i = l) := by
    funext i
    rfl
  rw [hpred, range_filter_eq n l h]
  rfl

/-- One batch per level: `numLevels` of the level list `0, …, n-1` is
`n`. -/
theorem numLevels_range (n : Nat) : numLevels (List.range n) = n := by
  cases n with
  | zero => rfl
  | succ k =>
    unfold numLevels
    rw [if_neg (by simp [List.isEmpty_iff, List.range_eq_nil])]
    rw [foldl_max_range k]

/-- Under a mutually conflicting record set, the greedy level assignment
gives each transaction its own level, in input order: starting from a
prefix whose levels are `0, …, k-1`, the remaining records receive levels
`k, k+1, …`. -/
theorem buildLevels_all_conflict (rest : List TxAccessRecord) :
    ∀ (prev : List (TxAccessRecord × Nat)) (k : Nat),
      (∀ p ∈ prev, ∀ q ∈ rest, ConflictDetector.conflicts p.1 q = true) →
      (∀ r ∈ rest, ∀ q ∈ rest, ConflictDetector.conflicts r q = true) →
      prev.map (fun p => p.2) = List.range k →
      buildLevels rest prev = List.range' k rest.length := by
  induction rest with
  | nil => intro prev k h1 h2 hmap; rfl
  | cons r rest ih =>
    intro prev k h1 h2 hmap
    have hfilter : prev.filter (fun p => ConflictDetector.conflicts p.1 r)
        = prev :=
      List.filter_eq_self.mpr
        (fun p hp => h1 p hp r (List.mem_cons_self r rest))
    have hlvl : levelFor r prev = k := by
      unfold levelFor
      rw [hfilter]
      rcases Nat.eq_zero_or_pos k with hk | hk
      · subst hk
        have hprev : prev = [] := by
          have := hmap
          simpa [List.map_eq_nil_iff] using this
        subst hprev
        rfl
      · have hne : prev ≠ [] := by
          intro hcon
          subst hcon
          simp only [List.map_nil] at hmap
          have := (List.range_eq_nil).mp hmap.symm
          omega
        rw [if_neg (by simpa [List.isEmpty_iff] using hne)]
        rw [hmap]
        obtain ⟨j, rfl⟩ : ∃ j, k = j + 1 := ⟨k - 1, by omega⟩
        rw [foldl_max_range j]
        omega
    have h1' : ∀ p ∈ prev ++ [(r, k)], ∀ q ∈ rest,
        ConflictDetector.conflicts p.1 q = true := by
      intro p hp q hq
      rcases List.mem_append.mp hp with hp | hp
      · exact h1 p hp q (List.mem_cons_of_mem r hq)
      · have : p = (r, k) := by simpa using hp
        subst this
        exact h2 r (List.mem_cons_self r rest) q (List.mem_cons_of_mem r hq)
    have h2' : ∀ a ∈ rest, ∀ q ∈ rest, ConflictDetector.conflicts a q = true :=
      fun a ha q hq =>
        h2 a (List.mem_cons_of_mem r ha) q (List.mem_cons_of_mem r hq)
    have hmap' : (prev ++ [(r, k)]).map (fun p => p.2) = List.range (k + 1) := by
      rw [List.map_append, hmap, List.range_succ]
      rfl
    show levelFor r prev :: buildLevels rest (prev ++ [(r, levelFor r prev)])
        = List.range' k (r :: rest).length
    rw [hlvl, ih (prev ++ [(r, k)]) (k + 1) h1' h2' hmap']
    rw [show (r :: rest).length = rest.length + 1 from rfl, List.range'_succ]

/-- C4: when every pair of input Access Records conflicts (as with 500
records all writing the same (account, slot) pair), `build` produces one
singleton batch per transaction, in input order, and `tx_count` equals the
number of input records. -/
theorem build_mutually_conflicting (records : List TxAccessRecord)
    (hconf : ∀ p ∈ records, ∀ q ∈ records,
      ConflictDetector.conflicts p q = true) :
    (ParallelSchedule.build records).batches
      = (List.range records.length).map (fun i => [i]) ∧
    (ParallelSchedule.build records).tx_count = records.length := by
  have hlev : buildLevels records [] = List.range' 0 records.length :=
    buildLevels_all_conflict records [] 0 (by simp) hconf (by simp)
  rw [← List.range_eq_range'] at hlev
  have hbatches : (ParallelSchedule.build records).batches
      = (List.range records.length).map (fun i => [i]) := by
    unfold ParallelSchedule.build
    rw [hlev, numLevels_range]
    exact List.map_congr_left
      (fun l hl => enum_range_filter records.length l (List.mem_range.mp hl))
  refine ⟨hbatches, ?_⟩
  unfold ParallelSchedule.tx_count
  rw [hbatches]
  simp [List.map_map, Function.comp_def]

/-- C4 witness: 500 Access Records all writing `(addr 1, slot 0)` schedule
into exactly 500 singleton batches `[0], [1], …, [499]` in input order,
with `tx_count = 500`. -/
theorem build_mutually_conflicting_inst :
    (ParallelSchedule.build (List.replicate 500 hotRecord)).batches
      = (List.range 500).map (fun i => [i]) ∧
    (ParallelSchedule.build (List.replicate 500 hotRecord)).tx_count = 500 := by
  have h := build_mutually_conflicting (List.replicate 500 hotRecord)
    (fun p hp q hq => by
      rw [List.eq_of_mem_replicate hp, List.eq_of_mem_replicate hq]
      decide)
  rw [List.length_replicate] at h
  exact h
